import Mathlib

/-!
Verification of the ground-side telemetry link (UI/ directory: handlePacket.py,
packet.py, radio.py, main.py) against its natural-language specification.

Bytes are modelled as `Nat` (Python `bytes` elements are integers in [0, 256));
buffers are `List Nat`.  Bit operations of the source that act on byte values
are translated to their arithmetic form (`x >> 16 & 0xFF` becomes
`x / 2^16 % 2^8`, little-endian `struct` unpacking becomes a base-256 sum),
which agrees with the source on the byte domain.  XOR checksums keep `^^^`.
-/

/-- Data model of `packet.py` (`DataPacket`): header, sequence, timestamp,
channel0, channel1, internal_adc, crc.  The decoded values are integers, so
all fields are `Nat` here. -/
structure DataPacket where
  header : Nat
  sequence : Nat
  timestamp : Nat
  channel0 : Nat
  channel1 : Nat
  internal_adc : Nat
  crc : Nat
deriving DecidableEq

/-- `PacketHandler.decode_packet` (handlePacket.py lines 8-64).  The source
checks `len(data) != 16` and `data[0] != 0xAC` and otherwise unpacks
`<BBI` (u8 header, u8 seq, little-endian u32 timestamp), two big-endian
24-bit channels from bytes 6..8 and 9..11, and `<HH` (little-endian u16 adc,
u16 crc) from bytes 12..15; failures return `None`.  The 16-element pattern
match is the length-16 check; any other length falls to `none`. -/
def decode_packet (data : List Nat) : Option DataPacket :=
  match data with
  | [b0, b1, b2, b3, b4, b5, b6, b7, b8, b9, b10, b11, b12, b13, b14, b15] =>
    if b0 = 172 then
      some { header := b0
             sequence := b1
             timestamp := b2 + 256 * b3 + 65536 * b4 + 16777216 * b5
             channel0 := 65536 * b6 + 256 * b7 + b8
             channel1 := 65536 * b9 + 256 * b10 + b11
             internal_adc := b12 + 256 * b13
             crc := b14 + 256 * b15 }
    else none
  | _ => none

/-- `PacketHandler.encode_packet` (handlePacket.py lines 66-90).
`struct.pack('<BBI', ...)` and `struct.pack('<HH', ...)` raise when a value
is out of its wire width, so encoding is fallible; channel bytes are masked
with `& 0xFF` and never raise. -/
def encode_packet (p : DataPacket) : Option (List Nat) :=
  if p.header < 256 ∧ p.sequence < 256 ∧ p.timestamp < 4294967296 ∧
      p.internal_adc < 65536 ∧ p.crc < 65536 then
    some [p.header, p.sequence,
          p.timestamp % 256, p.timestamp / 256 % 256,
          p.timestamp / 65536 % 256, p.timestamp / 16777216 % 256,
          p.channel0 / 65536 % 256, p.channel0 / 256 % 256, p.channel0 % 256,
          p.channel1 / 65536 % 256, p.channel1 / 256 % 256, p.channel1 % 256,
          p.internal_adc % 256, p.internal_adc / 256 % 256,
          p.crc % 256, p.crc / 256 % 256]
  else none

/-- Modelled from the spec: `PacketHandler.decode_ack` is called by radio.py
but is missing from handlePacket.py in the repository.  Spec section 4.1:
`decode_ack(buf[4]) -> (cmdChar, state) | None` if header is not 0xAB or
`xor8` of the first three bytes differs from `buf[3]`; the state byte is 0/1
and is read as a boolean. -/
def decode_ack (data : List Nat) : Option (Nat × Bool) :=
  match data with
  | [a0, a1, a2, a3] =>
    if a0 = 171 then
      if a0 ^^^ a1 ^^^ a2 = a3 then some (a1, a2 ≠ 0) else none
    else none
  | _ => none

/-- Modelled from the spec: `PacketHandler.encode_command` is called by
radio.py but is missing from handlePacket.py.  Spec section 4.1:
`encode_command(cmdChar, action) -> [0xAA, cmdChar, action, xor8(first3)]`. -/
def encode_command (c a : Nat) : List Nat :=
  [170, c, a, 170 ^^^ c ^^^ a]

/-- Modelled from the spec: an Ack frame as constructed by the flight side
(spec section 3, AckFrame): header 0xAB, commandChar, state byte (1 = true,
0 = false), crc8 = XOR of the first three bytes. -/
def encode_ack (c : Nat) (s : Bool) : List Nat :=
  [171, c, if s then 1 else 0, 171 ^^^ c ^^^ (if s then 1 else 0)]

/-- Modelled from the spec: the command-frame decoder implied by the spec's
round-trip property (section 8) and by "xor8 is a single-error-bit detector,
applied identically to command and ack frames" (section 4.1): header 0xAA
check plus the same xor8 check, returning (cmdChar, action). -/
def decode_command (data : List Nat) : Option (Nat × Nat) :=
  match data with
  | [a0, a1, a2, a3] =>
    if a0 = 170 then
      if a0 ^^^ a1 ^^^ a2 = a3 then some (a1, a2) else none
    else none
  | _ => none

/-- A decoded link event: either a telemetry packet or an ack tuple
(`Radio.RadioEvent` in radio.py). -/
inductive LinkEvent where
  | pkt (p : DataPacket)
  | ack (cmd : Nat) (state : Bool)
deriving DecidableEq

/-- `bytearray.find` for a single byte value: index of the first occurrence,
`none` when absent (the source's -1). -/
def findIdx2 (h : Nat) : List Nat → Option Nat
  | [] => none
  | a :: t => if a = h then some 0 else (findIdx2 h t).map (· + 1)

/-- The ack arm of `Radio.poll_event` (radio.py lines 100-106), after the
junk before the header has been dropped: wait if fewer than 4 bytes,
otherwise consume 4 bytes and decode them. -/
def pollAck (b : List Nat) : Option LinkEvent × List Nat :=
  if b.length < 4 then (none, b)
  else ((decode_ack (b.take 4)).map fun cs => LinkEvent.ack cs.1 cs.2, b.drop 4)

/-- The packet arm of `Radio.poll_event` (radio.py lines 108-116): wait if
fewer than 16 bytes, otherwise consume 16 bytes and decode; on a failed
decode drop one more byte to resync (if the buffer is nonempty). -/
def pollPkt (b : List Nat) : Option LinkEvent × List Nat :=
  if b.length < 16 then (none, b)
  else
    match decode_packet (b.take 16) with
    | some p => (some (.pkt p), b.drop 16)
    | none => (none, if (b.drop 16).isEmpty then b.drop 16 else (b.drop 16).tail)

/-- The parsing phase of `Radio.poll_event` (radio.py lines 75-116), acting
on the RX buffer: empty buffer yields nothing; with no header byte present
the buffer is cleared; otherwise the earliest header (0xAC packet vs 0xAB
ack, ack on a strictly smaller index) wins, junk before it is dropped, and
the corresponding arm runs. -/
def poll (buf : List Nat) : Option LinkEvent × List Nat :=
  if buf.isEmpty then (none, buf)
  else
    match findIdx2 172 buf, findIdx2 171 buf with
    | none, none => (none, [])
    | none, some ia => pollAck (buf.drop ia)
    | some ip, none => pollPkt (buf.drop ip)
    | some ip, some ia => if ia < ip then pollAck (buf.drop ia) else pollPkt (buf.drop ip)

/-- `Radio._pull_serial_bytes` buffer update (radio.py lines 224-229):
append the newly read chunk, then keep only the last 4096 bytes when the
backlog exceeds 4096 (`self._rx_buf = self._rx_buf[-4096:]`). -/
def feed (buf chunk : List Nat) : List Nat :=
  let b := buf ++ chunk
  if b.length > 4096 then b.drop (b.length - 4096) else b

/-- Feeding a byte stream one byte at a time, polling once after each byte:
returns the decoded events in order together with the final buffer. -/
def runBytes (buf : List Nat) : List Nat → List LinkEvent × List Nat
  | [] => ([], buf)
  | a :: s =>
    let buf1 := feed buf [a]
    let r1 := poll buf1
    let r2 := runBytes r1.2 s
    (r1.1.toList ++ r2.1, r2.2)

/-- Repeatedly polling a buffer until a poll makes no progress, collecting
the decoded events; `fuel` bounds the recursion (each productive poll
strictly shrinks the buffer, so `length + 1` fuel is always enough). -/
def drainFuel : Nat → List Nat → List LinkEvent
  | 0, _ => []
  | f + 1, buf =>
    match poll buf with
    | (some e, b') => e :: drainFuel f b'
    | (none, b') => if b' = buf then [] else drainFuel f b'

/-- Poll a buffer repeatedly until quiescent, collecting decoded events. -/
def drain (buf : List Nat) : List LinkEvent :=
  drainFuel (buf.length + 1) buf

/-! ### Basic properties of the poll machinery -/

theorem pollAck_suffix (b : List Nat) : (pollAck b).2 <:+ b := by
  unfold pollAck
  split
  · exact List.suffix_refl b
  · exact List.drop_suffix 4 b

theorem pollPkt_suffix (b : List Nat) : (pollPkt b).2 <:+ b := by
  unfold pollPkt
  split
  · exact List.suffix_refl b
  · split
    · exact List.drop_suffix 16 b
    · split
      · exact List.drop_suffix 16 b
      · exact ((b.drop 16).tail_suffix).trans (List.drop_suffix 16 b)

theorem poll_suffix (buf : List Nat) : (poll buf).2 <:+ buf := by
  unfold poll
  split
  · exact List.suffix_refl buf
  · split
    · exact List.nil_suffix
    · exact (pollAck_suffix _).trans (List.drop_suffix _ buf)
    · exact (pollPkt_suffix _).trans (List.drop_suffix _ buf)
    · split
      · exact (pollAck_suffix _).trans (List.drop_suffix _ buf)
      · exact (pollPkt_suffix _).trans (List.drop_suffix _ buf)

theorem poll_length_le (buf : List Nat) : (poll buf).2.length ≤ buf.length :=
  (poll_suffix buf).length_le

theorem pollAck_some_length {b : List Nat} {e : LinkEvent} {b' : List Nat}
    (h : pollAck b = (some e, b')) : b'.length < b.length := by
  unfold pollAck at h
  split at h
  · exact absurd (congrArg Prod.fst h) (by simp)
  · next hlen =>
    rw [Prod.mk.injEq] at h
    rw [← h.2]
    simp only [List.length_drop]
    omega

theorem pollPkt_some_length {b : List Nat} {e : LinkEvent} {b' : List Nat}
    (h : pollPkt b = (some e, b')) : b'.length < b.length := by
  unfold pollPkt at h
  split at h
  · exact absurd (congrArg Prod.fst h) (by simp)
  · next hlen =>
    split at h
    · rw [Prod.mk.injEq] at h
      rw [← h.2]
      simp only [List.length_drop]
      omega
    · exact absurd (congrArg Prod.fst h) (by simp)

theorem poll_some_length {buf : List Nat} {e : LinkEvent} {b' : List Nat}
    (h : poll buf = (some e, b')) : b'.length < buf.length := by
  unfold poll at h
  split at h
  · exact absurd (congrArg Prod.fst h) (by simp)
  · split at h
    · exact absurd (congrArg Prod.fst h) (by simp)
    · exact lt_of_lt_of_le (pollAck_some_length h) (buf.drop_suffix _).length_le
    · exact lt_of_lt_of_le (pollPkt_some_length h) (buf.drop_suffix _).length_le
    · split at h
      · exact lt_of_lt_of_le (pollAck_some_length h) (buf.drop_suffix _).length_le
      · exact lt_of_lt_of_le (pollPkt_some_length h) (buf.drop_suffix _).length_le

theorem poll_none_ne_length {buf b' : List Nat}
    (h : poll buf = (none, b')) (hne : b' ≠ buf) : b'.length < buf.length := by
  have hsuf : b' <:+ buf := by
    have := poll_suffix buf
    rwa [h] at this
  rcases lt_or_eq_of_le hsuf.length_le with hlt | heq
  · exact hlt
  · exact absurd (hsuf.eq_of_length heq) hne

theorem drainFuel_congr : ∀ n : Nat, ∀ f1 f2 buf,
    buf.length ≤ n → n < f1 → n < f2 → drainFuel f1 buf = drainFuel f2 buf := by
  intro n
  induction n using Nat.strong_induction_on with
  | _ n ih =>
    intro f1 f2 buf hbuf h1 h2
    match f1, f2 with
    | g1 + 1, g2 + 1 =>
      simp only [drainFuel]
      rcases hp : poll buf with ⟨ev, b'⟩
      match ev with
      | some e =>
        have hlt := poll_some_length hp
        dsimp only
        have heq := ih b'.length (by omega) g1 g2 b' le_rfl (by omega) (by omega)
        rw [heq]
      | none =>
        dsimp only
        by_cases hb : b' = buf
        · simp [hb]
        · have hlt := poll_none_ne_length hp hb
          have heq := ih b'.length (by omega) g1 g2 b' le_rfl (by omega) (by omega)
          simp [hb, heq]

/-- One-step unfolding of `drain`. -/
theorem drain_unfold (buf : List Nat) :
    drain buf = match poll buf with
      | (some e, b') => e :: drain b'
      | (none, b') => if b' = buf then [] else drain b' := by
  unfold drain
  conv_lhs => rw [drainFuel]
  rcases hp : poll buf with ⟨ev, b'⟩
  match ev with
  | some e =>
    have hlt := poll_some_length hp
    dsimp only
    rw [drainFuel_congr b'.length buf.length (b'.length + 1) b' le_rfl hlt (by omega)]
  | none =>
    dsimp only
    by_cases hb : b' = buf
    · simp [hb]
    · have hlt := poll_none_ne_length hp hb
      simp only [hb, if_false]
      rw [drainFuel_congr b'.length buf.length (b'.length + 1) b' le_rfl hlt (by omega)]

/-! ### Step lemmas for the link buffer -/

theorem findIdx2_cons (h a : Nat) (t : List Nat) :
    findIdx2 h (a :: t) = if a = h then some 0 else (findIdx2 h t).map (· + 1) := rfl

theorem findIdx2_nil (h : Nat) : findIdx2 h [] = none := rfl

theorem findIdx2_cons_self (h : Nat) (t : List Nat) : findIdx2 h (h :: t) = some 0 := by
  simp [findIdx2_cons]

/-- If the head byte is not the one searched for, a found index is positive. -/
theorem findIdx2_cons_pos {x h : Nat} {t : List Nat} (hxh : x ≠ h) {j : Nat}
    (hfind : findIdx2 h (x :: t) = some j) : 0 < j := by
  rw [findIdx2_cons, if_neg hxh, Option.map_eq_some'] at hfind
  obtain ⟨k, -, hk⟩ := hfind
  omega

/-- An incomplete ack candidate at the head of the buffer just waits. -/
theorem poll_wait_ack (t : List Nat) (hlen : (171 :: t).length < 4) :
    poll (171 :: t) = (none, 171 :: t) := by
  unfold poll
  rw [if_neg (by simp), findIdx2_cons_self]
  rcases h172 : findIdx2 172 (171 :: t) with _ | j
  · dsimp only
    simp only [pollAck, List.drop_zero]
    rw [if_pos hlen]
  · have hj : 0 < j := findIdx2_cons_pos (by omega) h172
    dsimp only
    rw [if_pos hj]
    simp only [pollAck, List.drop_zero]
    rw [if_pos hlen]

/-- An incomplete telemetry candidate at the head of the buffer just waits. -/
theorem poll_wait_pkt (t : List Nat) (hlen : (172 :: t).length < 16) :
    poll (172 :: t) = (none, 172 :: t) := by
  unfold poll
  rw [if_neg (by simp), findIdx2_cons_self]
  rcases h171 : findIdx2 171 (172 :: t) with _ | j
  · dsimp only
    simp only [pollPkt, List.drop_zero]
    rw [if_pos hlen]
  · have hj : 0 < j := findIdx2_cons_pos (by omega) h171
    dsimp only
    rw [if_neg (by omega)]
    simp only [pollPkt, List.drop_zero]
    rw [if_pos hlen]

/-- A complete 4-byte ack candidate at the head of the buffer is consumed
whole: exactly those 4 bytes leave the buffer, whatever the CRC check says. -/
theorem poll_frame_ack (a b c : Nat) (rest : List Nat) :
    poll (171 :: a :: b :: c :: rest) =
      ((decode_ack [171, a, b, c]).map fun cs => LinkEvent.ack cs.1 cs.2, rest) := by
  have harm : pollAck (171 :: a :: b :: c :: rest) =
      ((decode_ack [171, a, b, c]).map fun cs => LinkEvent.ack cs.1 cs.2, rest) := by
    unfold pollAck
    rw [if_neg (by simp)]
    rfl
  unfold poll
  rw [if_neg (by simp), findIdx2_cons_self]
  rcases h172 : findIdx2 172 (171 :: a :: b :: c :: rest) with _ | j
  · dsimp only
    simpa using harm
  · have hj : 0 < j := findIdx2_cons_pos (by omega) h172
    dsimp only
    rw [if_pos hj]
    simpa using harm

theorem exists_sixteen (l : List Nat) (h : l.length = 16) :
    ∃ b0 b1 b2 b3 b4 b5 b6 b7 b8 b9 b10 b11 b12 b13 b14 b15,
      l = [b0, b1, b2, b3, b4, b5, b6, b7, b8, b9, b10, b11, b12, b13, b14, b15] := by
  rcases l with _ | ⟨b0, l⟩
  · simp at h
  rcases l with _ | ⟨b1, l⟩
  · simp at h
  rcases l with _ | ⟨b2, l⟩
  · simp at h
  rcases l with _ | ⟨b3, l⟩
  · simp at h
  rcases l with _ | ⟨b4, l⟩
  · simp at h
  rcases l with _ | ⟨b5, l⟩
  · simp at h
  rcases l with _ | ⟨b6, l⟩
  · simp at h
  rcases l with _ | ⟨b7, l⟩
  · simp at h
  rcases l with _ | ⟨b8, l⟩
  · simp at h
  rcases l with _ | ⟨b9, l⟩
  · simp at h
  rcases l with _ | ⟨b10, l⟩
  · simp at h
  rcases l with _ | ⟨b11, l⟩
  · simp at h
  rcases l with _ | ⟨b12, l⟩
  · simp at h
  rcases l with _ | ⟨b13, l⟩
  · simp at h
  rcases l with _ | ⟨b14, l⟩
  · simp at h
  rcases l with _ | ⟨b15, l⟩
  · simp at h
  rcases l with _ | ⟨b16, l⟩
  · exact ⟨b0, b1, b2, b3, b4, b5, b6, b7, b8, b9, b10, b11, b12, b13, b14, b15, rfl⟩
  · simp at h

/-- A 16-byte buffer whose first byte is the 0xAC header always decodes. -/
theorem decode_packet_isSome {l : List Nat} (hlen : l.length = 16)
    (hhead : l.headD 0 = 172) : ∃ p, decode_packet l = some p ∧ p.header = 172 := by
  obtain ⟨b0, b1, b2, b3, b4, b5, b6, b7, b8, b9, b10, b11, b12, b13, b14, b15, rfl⟩ :=
    exists_sixteen l hlen
  simp only [List.headD_cons] at hhead
  subst hhead
  refine ⟨⟨172, b1, b2 + 256 * b3 + 65536 * b4 + 16777216 * b5,
    65536 * b6 + 256 * b7 + b8, 65536 * b9 + 256 * b10 + b11,
    b12 + 256 * b13, b14 + 256 * b15⟩, ?_, rfl⟩
  simp [decode_packet]

/-- A complete 16-byte telemetry frame at the head of the buffer is consumed
whole and always decodes (the resync-by-one branch of `poll_event` is dead:
a frame cut at a 0xAC header with 16 bytes available never fails). -/
theorem poll_frame_pkt (t : List Nat) (hlen : (172 :: t).length = 16) (rest : List Nat) :
    ∃ p, decode_packet (172 :: t) = some p ∧
      poll ((172 :: t) ++ rest) = (some (.pkt p), rest) := by
  obtain ⟨p, hdec, hhdr⟩ := decode_packet_isSome hlen (by simp)
  refine ⟨p, hdec, ?_⟩
  have harm : pollPkt ((172 :: t) ++ rest) = (some (.pkt p), rest) := by
    unfold pollPkt
    rw [if_neg (by rw [List.length_append, hlen]; omega)]
    rw [List.take_left' hlen, List.drop_left' hlen, hdec]
  rw [List.cons_append] at harm ⊢
  unfold poll
  rw [if_neg (by simp), findIdx2_cons_self]
  rcases h171 : findIdx2 171 (172 :: (t ++ rest)) with _ | j
  · dsimp only
    rw [List.drop_zero]
    exact harm
  · have hj : 0 < j := findIdx2_cons_pos (by omega) h171
    dsimp only
    rw [if_neg (by omega), List.drop_zero]
    exact harm

/-- A junk byte (neither header) in front of a buffer that still contains a
header does not change what one poll does. -/
theorem poll_cons_junk {a : Nat} (ha172 : a ≠ 172) (ha171 : a ≠ 171) {l : List Nat}
    (hl : findIdx2 172 l ≠ none ∨ findIdx2 171 l ≠ none) :
    poll (a :: l) = poll l := by
  have hlne : l ≠ [] := by
    rintro rfl
    simp [findIdx2_nil] at hl
  unfold poll
  rw [if_neg (by simp), if_neg (by simp [hlne])]
  rw [findIdx2_cons, if_neg ha172, findIdx2_cons, if_neg ha171]
  rcases h172 : findIdx2 172 l with _ | ip <;> rcases h171 : findIdx2 171 l with _ | ia
  · rcases hl with h | h
    · exact absurd h172 h
    · exact absurd h171 h
  · simp only [Option.map_none', Option.map_some']
    rw [List.drop_succ_cons]
  · simp only [Option.map_none', Option.map_some']
    rw [List.drop_succ_cons]
  · simp only [Option.map_some']
    by_cases hia : ia < ip
    · rw [if_pos (by omega), if_pos hia, List.drop_succ_cons]
    · rw [if_neg (by omega), if_neg hia, List.drop_succ_cons]

/-- A junk byte in front of the buffer never changes the drained event
sequence. -/
theorem drain_cons_junk {a : Nat} (ha172 : a ≠ 172) (ha171 : a ≠ 171) (l : List Nat) :
    drain (a :: l) = drain l := by
  by_cases hl : findIdx2 172 l = none ∧ findIdx2 171 l = none
  · -- no header anywhere: both sides clear to nothing
    have hpal : poll (a :: l) = (none, []) := by
      unfold poll
      rw [if_neg (by simp), findIdx2_cons, if_neg ha172, findIdx2_cons, if_neg ha171,
        hl.1, hl.2]
      rfl
    rw [drain_unfold (a :: l), hpal]
    dsimp only
    rw [if_neg (by simp)]
    rcases l with _ | ⟨x, xs⟩
    · rfl
    · have hpl : poll (x :: xs) = (none, []) := by
        unfold poll
        rw [if_neg (by simp), hl.1, hl.2]
      rw [drain_unfold (x :: xs), hpl]
      dsimp only
      rw [if_neg (by simp)]
  · have hl' : findIdx2 172 l ≠ none ∨ findIdx2 171 l ≠ none := by tauto
    have hpoll := poll_cons_junk ha172 ha171 hl'
    rw [drain_unfold (a :: l), drain_unfold l, hpoll]
    rcases hp : poll l with ⟨ev, b'⟩
    have hsufl : b' <:+ l := by
      have := poll_suffix l
      rwa [hp] at this
    match ev with
    | some e => rfl
    | none =>
      dsimp only
      have hbne : b' ≠ a :: l := by
        intro hcontra
        have := hsufl.length_le
        rw [hcontra] at this
        simp at this
      by_cases hb : b' = l
      · rw [if_pos hb, if_neg hbne, hb]
        rw [drain_unfold l, hp]
        dsimp only
        rw [if_pos hb]
      · rw [if_neg hb, if_neg hbne]

/-! ### Chunk-size independence of the link buffer -/

/-- Invariant of byte-at-a-time operation: after each poll the buffer is
empty or a strict prefix of a frame headed by 0xAC or 0xAB. -/
def SmallInv (b : List Nat) : Prop :=
  b = [] ∨ (∃ t, b = 172 :: t ∧ b.length < 16) ∨ (∃ t, b = 171 :: t ∧ b.length < 4)

theorem SmallInv.length_le {b : List Nat} (h : SmallInv b) : b.length ≤ 15 := by
  rcases h with rfl | ⟨t, rfl, hlen⟩ | ⟨t, rfl, hlen⟩
  · simp
  · omega
  · omega

/-- A buffer satisfying the invariant contains no complete frame: draining
it yields no further events. -/
theorem drain_smallInv {b : List Nat} (h : SmallInv b) : drain b = [] := by
  rcases h with rfl | ⟨t, rfl, hlen⟩ | ⟨t, rfl, hlen⟩
  · rfl
  · rw [drain_unfold, poll_wait_pkt t hlen]
    simp
  · rw [drain_unfold, poll_wait_ack t hlen]
    simp

theorem feed_of_small {buf chunk : List Nat} (h : (buf ++ chunk).length ≤ 4096) :
    feed buf chunk = buf ++ chunk := by
  unfold feed
  rw [if_neg (by omega)]

/-- Draining a buffer that starts with a complete 16-byte telemetry frame
produces that packet followed by the drain of the remainder. -/
theorem drain_pkt_cons (t : List Nat) (hlen : (172 :: t).length = 16) (s : List Nat) :
    ∃ p, decode_packet (172 :: t) = some p ∧
      drain ((172 :: t) ++ s) = .pkt p :: drain s := by
  obtain ⟨p, hdec, hpoll⟩ := poll_frame_pkt t hlen s
  refine ⟨p, hdec, ?_⟩
  rw [drain_unfold, hpoll]

/-- Draining a buffer that starts with a complete 4-byte ack candidate
produces its decode result (if any) followed by the drain of the rest. -/
theorem drain_ack_cons (x y z : Nat) (s : List Nat) :
    drain (171 :: x :: y :: z :: s) =
      ((decode_ack [171, x, y, z]).map fun cs => LinkEvent.ack cs.1 cs.2).toList
        ++ drain s := by
  rw [drain_unfold, poll_frame_ack]
  rcases hda : decode_ack [171, x, y, z] with _ | cs
  · dsimp only [Option.map_none', Option.toList]
    rw [if_neg (by
      intro hc
      have hlen2 := congrArg List.length hc
      simp only [List.length_cons] at hlen2
      omega)]
    simp
  · rfl

theorem runBytes_cons (buf : List Nat) (a : Nat) (s : List Nat) :
    runBytes buf (a :: s) =
      ((poll (feed buf [a])).1.toList ++ (runBytes (poll (feed buf [a])).2 s).1,
        (runBytes (poll (feed buf [a])).2 s).2) := rfl

/-- Key simulation: starting from any invariant buffer, feeding the stream
byte by byte with one poll per byte produces exactly the events of draining
the buffer with the whole stream appended, and re-establishes the
invariant. -/
theorem runBytes_eq_drain : ∀ (s buf : List Nat), SmallInv buf →
    (runBytes buf s).1 = drain (buf ++ s) ∧ SmallInv (runBytes buf s).2 := by
  intro s
  induction s with
  | nil =>
    intro buf h
    refine ⟨?_, by simpa [runBytes] using h⟩
    simp only [runBytes, List.append_nil]
    exact (drain_smallInv h).symm
  | cons a s ih =>
    intro buf h
    have hfeed : feed buf [a] = buf ++ [a] := by
      apply feed_of_small
      have := h.length_le
      simp only [List.length_append, List.length_cons, List.length_nil]
      omega
    rw [runBytes_cons, hfeed]
    rcases h with rfl | ⟨t, rfl, hlen⟩ | ⟨t, rfl, hlen⟩
    · -- empty buffer: the arriving byte is either a header (wait) or junk
      simp only [List.nil_append]
      by_cases ha172 : a = 172
      · subst ha172
        rw [poll_wait_pkt [] (by simp)]
        obtain ⟨ih1, ih2⟩ := ih [172] (Or.inr (Or.inl ⟨[], rfl, by simp⟩))
        exact ⟨by simpa using ih1, ih2⟩
      · by_cases ha171 : a = 171
        · subst ha171
          rw [poll_wait_ack [] (by simp)]
          obtain ⟨ih1, ih2⟩ := ih [171] (Or.inr (Or.inr ⟨[], rfl, by simp⟩))
          exact ⟨by simpa using ih1, ih2⟩
        · have hpoll : poll [a] = (none, []) := by
            unfold poll
            rw [if_neg (by simp)]
            rw [findIdx2_cons, if_neg ha172, findIdx2_cons, if_neg ha171]
            rfl
          rw [hpoll]
          obtain ⟨ih1, ih2⟩ := ih [] (Or.inl rfl)
          refine ⟨?_, ih2⟩
          rw [drain_cons_junk ha172 ha171]
          simpa using ih1
    · -- buffer holds a partial telemetry frame
      rw [List.cons_append]
      by_cases hfull : (172 :: (t ++ [a])).length = 16
      · obtain ⟨p, hdec, hpoll⟩ := poll_frame_pkt (t ++ [a]) hfull []
        rw [List.append_nil] at hpoll
        rw [hpoll]
        obtain ⟨ih1, ih2⟩ := ih [] (Or.inl rfl)
        refine ⟨?_, ih2⟩
        obtain ⟨p', hdec', hdrain⟩ := drain_pkt_cons (t ++ [a]) hfull s
        have hassoc : (172 :: t) ++ a :: s = (172 :: (t ++ [a])) ++ s := by
          simp
        rw [hassoc, hdrain]
        have hp' : p = p' := by
          rw [hdec] at hdec'
          exact Option.some_inj.mp hdec'
        subst hp'
        simp only [Option.toList_some, List.cons_append, List.nil_append,
          List.cons.injEq, true_and]
        simpa using ih1
      · have hwait : poll (172 :: (t ++ [a])) = (none, 172 :: (t ++ [a])) := by
          apply poll_wait_pkt
          simp only [List.length_cons, List.length_append, List.length_nil] at hfull hlen ⊢
          omega
        rw [hwait]
        have hinv : SmallInv (172 :: (t ++ [a])) := by
          refine Or.inr (Or.inl ⟨t ++ [a], rfl, ?_⟩)
          simp only [List.length_cons, List.length_append, List.length_nil] at hfull hlen ⊢
          omega
        obtain ⟨ih1, ih2⟩ := ih (172 :: (t ++ [a])) hinv
        refine ⟨?_, ih2⟩
        rw [ih1]
        simp
    · -- buffer holds a partial ack candidate
      rw [List.cons_append]
      by_cases hfull : (171 :: (t ++ [a])).length = 4
      · have ht2 : t.length = 2 := by
          simp only [List.length_cons, List.length_append, List.length_nil] at hfull
          omega
        rcases t with _ | ⟨x, t⟩
        · simp at ht2
        rcases t with _ | ⟨y, t⟩
        · simp at ht2
        rcases t with _ | ⟨z, t⟩
        · -- t = [x, y]
          simp only [List.cons_append, List.nil_append]
          rw [poll_frame_ack x y a []]
          obtain ⟨ih1, ih2⟩ := ih [] (Or.inl rfl)
          refine ⟨?_, ih2⟩
          rw [drain_ack_cons x y a s]
          simp only [List.nil_append] at ih1
          simp [ih1]
        · simp at ht2
      · have hwait : poll (171 :: (t ++ [a])) = (none, 171 :: (t ++ [a])) := by
          apply poll_wait_ack
          simp only [List.length_cons, List.length_append, List.length_nil] at hfull hlen ⊢
          omega
        rw [hwait]
        have hinv : SmallInv (171 :: (t ++ [a])) := by
          refine Or.inr (Or.inr ⟨t ++ [a], rfl, ?_⟩)
          simp only [List.length_cons, List.length_append, List.length_nil] at hfull hlen ⊢
          omega
        obtain ⟨ih1, ih2⟩ := ih (171 :: (t ++ [a])) hinv
        refine ⟨?_, ih2⟩
        rw [ih1]
        simp

theorem runBytes_append (buf s t : List Nat) :
    runBytes buf (s ++ t) =
      ((runBytes buf s).1 ++ (runBytes (runBytes buf s).2 t).1,
        (runBytes (runBytes buf s).2 t).2) := by
  induction s generalizing buf with
  | nil => simp [runBytes]
  | cons a s ih =>
    rw [List.cons_append, runBytes_cons, runBytes_cons, ih]
    simp [List.append_assoc]

theorem findIdx2_replicate {h a : Nat} (hne : a ≠ h) (n : Nat) :
    findIdx2 h (List.replicate n a) = none := by
  induction n with
  | zero => rfl
  | succ n ih =>
    rw [List.replicate_succ, findIdx2_cons, if_neg hne, ih]
    rfl

/-- Pure noise fed one byte at a time is cleared on every poll: no events,
empty final buffer. -/
theorem runBytes_zeros (n : Nat) : runBytes [] (List.replicate n 0) = ([], []) := by
  induction n with
  | zero => rfl
  | succ n ih =>
    rw [List.replicate_succ, runBytes_cons, feed_of_small (by simp)]
    have hpoll : poll ([] ++ [0]) = (none, []) := by decide
    rw [hpoll, ih]
    rfl

/-- A nonempty all-noise buffer is cleared by the first poll: draining
yields nothing. -/
theorem drain_zeros (m : Nat) : drain (0 :: List.replicate m 0) = [] := by
  have hpoll : poll (0 :: List.replicate m 0) = (none, []) := by
    unfold poll
    rw [if_neg (by simp)]
    rw [findIdx2_cons, if_neg (by omega), findIdx2_cons, if_neg (by omega),
      findIdx2_replicate (by omega) m, findIdx2_replicate (by omega) m]
    rfl
  rw [drain_unfold, hpoll]
  dsimp only
  rw [if_neg (by simp)]
  rfl

/-- A valid 16-byte telemetry frame (header plus fifteen zero bytes). -/
def pkt16 : List Nat := 172 :: List.replicate 15 0

/-- A stream longer than the 4096-byte backlog cap: one complete telemetry
frame followed by 4096 bytes of noise. -/
def streamBig : List Nat := pkt16 ++ List.replicate 4096 0

theorem streamBig_length : streamBig.length = 4112 := by
  unfold streamBig pkt16
  rw [List.length_append, List.length_cons, List.length_replicate, List.length_replicate]

theorem feed_streamBig_unfold : feed [] streamBig =
    (if ([] ++ streamBig).length > 4096 then
      ([] ++ streamBig).drop (([] ++ streamBig).length - 4096)
    else [] ++ streamBig) := rfl

theorem feed_streamBig : feed [] streamBig = List.replicate 4096 0 := by
  rw [feed_streamBig_unfold, List.nil_append, streamBig_length, if_pos (by omega)]
  show streamBig.drop (4112 - 4096) = List.replicate 4096 0
  rw [show (4112 - 4096 : Nat) = 16 from rfl]
  unfold streamBig
  rw [List.drop_left' (by simp [pkt16])]

/-! ### Connection state machine (radio.py) -/

/-- Connection-relevant state of `Radio` on a real serial port: `connected`
models `self.ser is not None and self.ser.is_open`, `rxBuf` is `_rx_buf`. -/
structure RadioSt where
  connected : Bool
  rxBuf : List Nat
deriving DecidableEq

/-- Outcome of one transport read attempt inside `_pull_serial_bytes`:
either a chunk of bytes (possibly empty) or a transport-level failure
(`SerialException`/`OSError`, which includes the ready-but-empty read that
the source raises as a `SerialException` itself). -/
inductive PullRes where
  | chunk (c : List Nat)
  | err
deriving DecidableEq

/-- The operations that can touch the connection state: a reconnect attempt
with its outcome, one `poll_event` call with the outcome of its transport
read, one `send_command` call with the outcome of the transport write, and
`close`. -/
inductive RAct where
  | reconnect (ok : Bool)
  | pollEvt (r : PullRes)
  | send (ok : Bool)
  | close
deriving DecidableEq

/-- `Radio._mark_disconnected` (radio.py lines 145-154): close and drop the
port, clear the RX buffer. -/
def markDisconnected (_s : RadioSt) : RadioSt := { connected := false, rxBuf := [] }

/-- One step of the `Radio` connection state machine, transcribed from
`reconnect` (lines 156-167), `poll_event`/`_pull_serial_bytes` (lines
61-116 and 202-232), `send_command` (lines 278-290) and `close` (292-293).
Decode/CRC failures live entirely inside `poll` and never touch
`connected`. -/
def radioStep (s : RadioSt) (a : RAct) : RadioSt :=
  match a with
  | .reconnect ok =>
    if s.connected then s
    else if ok then { s with connected := true }
    else markDisconnected s
  | .pollEvt r =>
    if s.connected then
      match r with
      | .err => markDisconnected s
      | .chunk c => { connected := true, rxBuf := (poll (feed s.rxBuf c)).2 }
    else s
  | .send ok =>
    if s.connected then (if ok then s else markDisconnected s) else s
  | .close => markDisconnected s

/-- `Radio.send_command` (radio.py lines 278-290) as a fallible call: the
`Except` layer records whether an exception escapes to the caller.  A
not-connected or never-opened transport hits the early `return`; a failing
`ser.write`/`ser.flush` raises `SerialException`/`OSError`, which the
source catches and converts into `_mark_disconnected`. -/
def send_command (s : RadioSt) (writeOk : Bool) : Except Unit RadioSt :=
  if s.connected then
    (if writeOk then .ok s else .ok (markDisconnected s))
  else .ok s

/-! ### CSV logging and deduplication (main.py) -/

/-- `CsvKey` (main.py lines 19-24): the composite dedup key of a telemetry
row. -/
structure CsvKey where
  header : Nat
  seq : Nat
  timestamp : Nat
  crc : Nat
deriving DecidableEq

/-- Logging state of `RadioWorker` (main.py lines 50-61): whether logging
is enabled, the target path (`_csv_path`), the path of the currently open
file (`none` when `_csv_file`/`_csv_writer` are `None`), the dedup deque
(`_written_keys`, maxlen 100000), the dedup set (`_written_set`), and the
rows appended on disk as (path, key) pairs.  Paths are identifiers
(`Nat`); each written row is recorded by the key it was deduplicated
under. -/
structure LogSt where
  loggingEnabled : Bool
  csvPath : Option Nat
  openFile : Option Nat
  writtenKeys : List CsvKey
  writtenSet : Finset CsvKey
  disk : List (Nat × CsvKey)
deriving DecidableEq

/-- `RadioWorker._write_row_dedup` (main.py lines 161-184): no-op `False`
when the writer is closed or the key is in the set; otherwise append the
row, append the key to the deque (bounded at 100000, the oldest key falls
out), add it to the set, and rebuild the set from the deque when it became
larger than the deque (the source's `while` loop runs at most once, since a
set built from the deque can never exceed the deque's length). -/
def write_row_dedup (s : LogSt) (k : CsvKey) : Bool × LogSt :=
  match s.openFile with
  | none => (false, s)
  | some p =>
    if k ∈ s.writtenSet then (false, s)
    else
      let disk2 := s.disk ++ [(p, k)]
      let keys2 := if s.writtenKeys.length < 100000
        then s.writtenKeys ++ [k] else s.writtenKeys.tail ++ [k]
      let set1 := insert k s.writtenSet
      let set2 := if keys2.length < set1.card then keys2.toFinset else set1
      (true, { s with disk := disk2, writtenKeys := keys2, writtenSet := set2 })

/-- `RadioWorker._open_csv_if_needed` (main.py lines 116-143): nothing
without a target path or when a file is already open; otherwise open the
target path (the CSV header row on a fresh file carries no dedup key and is
not modelled as a data row). -/
def open_csv_if_needed (s : LogSt) : LogSt :=
  match s.csvPath with
  | none => s
  | some p =>
    match s.openFile with
    | some _ => s
    | none => { s with openFile := some p }

/-- `RadioWorker._close_csv` (main.py lines 145-159): close the file;
clear the dedup deque and set only when `reset_dedupe` is passed. -/
def close_csv (s : LogSt) (resetDedupe : Bool) : LogSt :=
  let s1 := { s with openFile := none }
  if resetDedupe then { s1 with writtenKeys := [], writtenSet := ∅ } else s1

/-- `RadioWorker.start_logging` (main.py lines 69-75): retarget the path,
open if needed, enable logging.  No dedup reset happens here. -/
def start_logging (s : LogSt) (p : Nat) : LogSt :=
  let s1 := open_csv_if_needed { s with csvPath := some p }
  { s1 with loggingEnabled := true }

/-- `RadioWorker.stop_logging` (main.py lines 77-81): disable logging and
close the file without touching the dedup structures. -/
def stop_logging (s : LogSt) : LogSt :=
  close_csv { s with loggingEnabled := false } false

/-- The path-switch prefix of `RadioWorker.save_last_10s` (main.py lines
89-97): when the snapshot target differs from the current target, disable
logging, close with `reset_dedupe=True` and retarget; then open if
needed. -/
def snapshot_switch (s : LogSt) (p : Nat) : LogSt :=
  if s.csvPath ≠ some p then
    open_csv_if_needed
      { close_csv { s with loggingEnabled := false } true with csvPath := some p }
  else open_csv_if_needed s

/-- Folding a sequence of dedup writes (the `for br in rows` loop of
`save_last_10s`, and the per-packet logging writes of the main loop). -/
def processWrites (s : LogSt) (ks : List CsvKey) : LogSt :=
  ks.foldl (fun st k => (write_row_dedup st k).2) s

/-- `RadioWorker.save_last_10s` (main.py lines 84-108): switch target if
necessary, then write the buffered rows of the last 10 seconds through the
dedup writer.  The time filtering of the recent ring over the monotonic
clock is abstracted: `rows` is the already-filtered key list, in order. -/
def save_last_10s (s : LogSt) (p : Nat) (rows : List CsvKey) : LogSt :=
  processWrites (snapshot_switch s p) rows

/-- The state right after `start_logging p` on a fresh worker. -/
def freshOpen (p : Nat) : LogSt :=
  { loggingEnabled := true, csvPath := some p, openFile := some p,
    writtenKeys := [], writtenSet := ∅, disk := [] }

/-- The last (at most) 100000 entries of a list: the contents of a deque
with `maxlen=100000` after appending the list elementwise. -/
def windowN (l : List CsvKey) : List CsvKey := l.drop (l.length - 100000)

/-- Closed form of the logging state after writing the distinct keys `l`
through a freshly opened file at path `p`. -/
def mkLogSt (p : Nat) (l : List CsvKey) : LogSt :=
  { loggingEnabled := true, csvPath := some p, openFile := some p,
    writtenKeys := windowN l, writtenSet := (windowN l).toFinset,
    disk := l.map fun k => (p, k) }

/-! ### Dedup-writer lemmas -/

theorem windowN_subset (l : List CsvKey) : windowN l ⊆ l :=
  (List.drop_suffix _ l).sublist.subset

theorem windowN_nodup {l : List CsvKey} (h : l.Nodup) : (windowN l).Nodup :=
  (List.drop_suffix _ l).sublist.nodup h

theorem windowN_of_le {l : List CsvKey} (h : l.length ≤ 100000) : windowN l = l := by
  unfold windowN
  rw [Nat.sub_eq_zero_of_le h, List.drop_zero]

theorem windowN_length (l : List CsvKey) :
    (windowN l).length = l.length - (l.length - 100000) := by
  unfold windowN
  rw [List.length_drop]

/-- Writing with a closed writer is a no-op returning `false`. -/
theorem write_closed {s : LogSt} (h : s.openFile = none) (k : CsvKey) :
    write_row_dedup s k = (false, s) := by
  unfold write_row_dedup
  rw [h]

/-- Writing a key already in the dedup set is a no-op returning `false`. -/
theorem write_dup {s : LogSt} {k : CsvKey} (hk : k ∈ s.writtenSet) :
    write_row_dedup s k = (false, s) := by
  unfold write_row_dedup
  rcases hopen : s.openFile with _ | p
  · rfl
  · dsimp only
    rw [if_pos hk]

/-- Writing a fresh key with an open writer returns `true`, appends the row
and records the key. -/
theorem write_fresh {s : LogSt} {p : Nat} {k : CsvKey} (hopen : s.openFile = some p)
    (hk : k ∉ s.writtenSet) :
    (write_row_dedup s k).1 = true ∧
    (write_row_dedup s k).2.disk = s.disk ++ [(p, k)] ∧
    k ∈ (write_row_dedup s k).2.writtenSet ∧
    (write_row_dedup s k).2.openFile = s.openFile := by
  unfold write_row_dedup
  rw [hopen]
  dsimp only
  rw [if_neg hk]
  refine ⟨rfl, rfl, ?_, rfl⟩
  dsimp only
  split <;> split <;> simp [List.mem_toFinset]

/-- One fresh distinct write advances the closed-form state. -/
theorem write_mkLogSt {p : Nat} {done : List CsvKey} {k : CsvKey}
    (hdone : done.Nodup) (hk : k ∉ done) :
    write_row_dedup (mkLogSt p done) k = (true, mkLogSt p (done ++ [k])) := by
  have hkwin : k ∉ windowN done := fun hmem => hk (windowN_subset done hmem)
  have hwnodup : (windowN done).Nodup := windowN_nodup hdone
  unfold write_row_dedup mkLogSt
  dsimp only
  rw [if_neg (by rw [List.mem_toFinset]; exact hkwin)]
  have hcard : (insert k (windowN done).toFinset).card = (windowN done).length + 1 := by
    rw [Finset.card_insert_of_not_mem (by rw [List.mem_toFinset]; exact hkwin),
      List.toFinset_card_of_nodup hwnodup]
  by_cases hlen : done.length < 100000
  · -- no eviction: the deque simply grows
    have hwin : windowN done = done := windowN_of_le (by omega)
    have hwin' : windowN (done ++ [k]) = done ++ [k] := by
      apply windowN_of_le
      rw [List.length_append]
      simp only [List.length_cons, List.length_nil]
      omega
    rw [hwin] at hcard ⊢
    rw [if_pos hlen]
    rw [if_neg (by rw [List.length_append]; simp only [List.length_cons, List.length_nil]; omega)]
    rw [Prod.mk.injEq]
    refine ⟨rfl, ?_⟩
    rw [LogSt.mk.injEq]
    refine ⟨rfl, rfl, rfl, by rw [hwin'], ?_, by simp⟩
    rw [hwin', List.toFinset_append]
    simp [Finset.insert_eq, Finset.union_comm]
  · -- eviction: the oldest key leaves the deque and the set is rebuilt
    have hwlen : (windowN done).length = 100000 := by
      rw [windowN_length]
      omega
    have hkeys : (windowN done).tail ++ [k] = windowN (done ++ [k]) := by
      unfold windowN
      rw [List.tail_drop]
      rw [List.length_append]
      simp only [List.length_cons, List.length_nil]
      rw [show done.length + 1 - 100000 = done.length - 100000 + 1 by omega]
      rw [List.drop_append_of_le_length (by omega)]
    rw [if_neg (by rw [hwlen]; omega)]
    rw [if_pos (by
      rw [hcard, List.length_append, List.length_tail, hwlen]
      simp only [List.length_cons, List.length_nil]
      omega)]
    rw [Prod.mk.injEq]
    refine ⟨rfl, ?_⟩
    rw [LogSt.mk.injEq]
    exact ⟨rfl, rfl, rfl, hkeys, by rw [hkeys], by simp⟩

theorem mkLogSt_nil (p : Nat) : mkLogSt p [] = freshOpen p := rfl

theorem processWrites_cons (s : LogSt) (k : CsvKey) (ks : List CsvKey) :
    processWrites s (k :: ks) = processWrites (write_row_dedup s k).2 ks := rfl

/-- Closed form: writing pairwise-distinct fresh keys from the closed-form
state extends it, with the deque and set holding the most recent 100000. -/
theorem processWrites_mkLogSt (p : Nat) :
    ∀ ks done : List CsvKey, (done ++ ks).Nodup →
      processWrites (mkLogSt p done) ks = mkLogSt p (done ++ ks) := by
  intro ks
  induction ks with
  | nil =>
    intro done _
    rw [List.append_nil]
    rfl
  | cons k ks ih =>
    intro done hnodup
    have hdone : done.Nodup := (List.nodup_append.mp hnodup).1
    have hk : k ∉ done := by
      have := (List.nodup_append.mp hnodup).2.2
      intro hmem
      exact this hmem (by simp)
    rw [processWrites_cons, write_mkLogSt hdone hk, ih (done ++ [k]) (by simpa using hnodup)]
    rw [List.append_assoc]
    rfl

/-- The set of seen keys accumulated left to right, keeping first
occurrences. -/
def dedupSeen (done ks : List CsvKey) : List CsvKey :=
  ks.foldl (fun d k => if k ∈ d then d else d ++ [k]) done

theorem dedupSeen_nil (done : List CsvKey) : dedupSeen done [] = done := rfl

/-- As long as the dedup window is never full, writing any request list
from a closed-form state stays in closed form over the deduplicated
requests. -/
theorem processWrites_dedupSeen (p : Nat) :
    ∀ ks done : List CsvKey, done.Nodup → done.length + ks.length ≤ 100000 →
      processWrites (mkLogSt p done) ks = mkLogSt p (dedupSeen done ks) ∧
      (dedupSeen done ks).Nodup ∧
      (dedupSeen done ks).length ≤ done.length + ks.length := by
  intro ks
  induction ks with
  | nil =>
    intro done hnd _
    exact ⟨by rw [dedupSeen_nil]; rfl, hnd, by rw [dedupSeen_nil]; simp⟩
  | cons k ks ih =>
    intro done hnd hbound
    simp only [List.length_cons] at hbound
    by_cases hk : k ∈ done
    · have hdup : write_row_dedup (mkLogSt p done) k = (false, mkLogSt p done) := by
        apply write_dup
        show k ∈ (windowN done).toFinset
        rw [windowN_of_le (by omega), List.mem_toFinset]
        exact hk
      have hseen : dedupSeen done (k :: ks) = dedupSeen done ks := by
        unfold dedupSeen
        rw [List.foldl_cons, if_pos hk]
      rw [processWrites_cons, hdup, hseen]
      have hres := ih done hnd (by omega)
      refine ⟨hres.1, hres.2.1, ?_⟩
      have h3 := hres.2.2
      simp only [List.length_cons]
      omega
    · have hseen : dedupSeen done (k :: ks) = dedupSeen (done ++ [k]) ks := by
        unfold dedupSeen
        rw [List.foldl_cons, if_neg hk]
      have hnd' : (done ++ [k]).Nodup := by
        rw [List.nodup_append]
        exact ⟨hnd, List.nodup_singleton k, by simpa using hk⟩
      rw [processWrites_cons, write_mkLogSt hnd hk, hseen]
      have := ih (done ++ [k]) hnd' (by
        rw [List.length_append]
        simp only [List.length_cons, List.length_nil]
        omega)
      refine ⟨this.1, this.2.1, ?_⟩
      have h3 := this.2.2
      rw [List.length_append] at h3
      simp only [List.length_cons, List.length_nil] at h3 ⊢
      omega

/-! ### Helper lemmas for the decode characterisation -/

theorem decode_packet_eq_none_of_length {data : List Nat} (h : data.length ≠ 16) :
    decode_packet data = none := by
  unfold decode_packet
  split
  · exact absurd rfl h
  · rfl

theorem decode_packet_header {data : List Nat} {p : DataPacket}
    (h : decode_packet data = some p) : p.header = 172 := by
  unfold decode_packet at h
  split at h
  · split at h
    · next hb0 =>
      rw [Option.some_inj] at h
      rw [← h, hb0]
    · exact absurd h (by simp)
  · exact absurd h (by simp)

theorem pollAck_event {b : List Nat} {e : LinkEvent} {b' : List Nat}
    (h : pollAck b = (some e, b')) : ∃ c st, e = .ack c st := by
  unfold pollAck at h
  split at h
  · exact absurd (congrArg Prod.fst h) (by simp)
  · rw [Prod.mk.injEq] at h
    obtain ⟨h1, -⟩ := h
    rw [Option.map_eq_some'] at h1
    obtain ⟨cs, -, hcs⟩ := h1
    exact ⟨cs.1, cs.2, hcs.symm⟩

theorem pollPkt_event {b : List Nat} {e : LinkEvent} {b' : List Nat}
    (h : pollPkt b = (some e, b')) :
    ∃ p, e = .pkt p ∧ decode_packet (b.take 16) = some p := by
  unfold pollPkt at h
  split at h
  · exact absurd (congrArg Prod.fst h) (by simp)
  · split at h
    · next p hp =>
      rw [Prod.mk.injEq] at h
      exact ⟨p, (Option.some_inj.mp h.1).symm, hp⟩
    · exact absurd (congrArg Prod.fst h) (by simp)

theorem poll_pkt_header {buf : List Nat} {p : DataPacket} {b' : List Nat}
    (h : poll buf = (some (.pkt p), b')) : p.header = 172 := by
  unfold poll at h
  split at h
  · exact absurd (congrArg Prod.fst h) (by simp)
  · split at h
    · exact absurd (congrArg Prod.fst h) (by simp)
    · obtain ⟨c, st, hcs⟩ := pollAck_event h
      exact absurd hcs (by simp)
    · obtain ⟨q, hq, hdec⟩ := pollPkt_event h
      rw [LinkEvent.pkt.injEq] at hq
      exact hq ▸ decode_packet_header hdec
    · split at h
      · obtain ⟨c, st, hcs⟩ := pollAck_event h
        exact absurd hcs (by simp)
      · obtain ⟨q, hq, hdec⟩ := pollPkt_event h
        rw [LinkEvent.pkt.injEq] at hq
        exact hq ▸ decode_packet_header hdec

/-! ### Claim C1 -/

/-- C1, counterexample: an 18-byte buffer with header 0xAC is rejected by
`decode_packet`, although the claim says telemetry decode succeeds on every
18-byte buffer with header 0xAC (the code's frame is 16 bytes, not 18). -/
theorem C1_cex :
    (172 :: List.replicate 17 0).length = 18 ∧
    (172 :: List.replicate 17 0).headD 0 = 172 ∧
    decode_packet (172 :: List.replicate 17 0) = none := by
  refine ⟨by simp, rfl, by decide⟩

/-- C1 (amended): telemetry decode succeeds exactly on 16-byte buffers
whose first byte is 0xAC; the layout is little-endian u8 header, u8 seq,
u32 timestamp, then two big-endian 24-bit integer channels, u16 adc,
u16 crc; an encoded frame is exactly 16 bytes; and every telemetry frame
emitted by a poll has header 0xAC. -/
theorem C1_telemetry_frame_amended :
    (∀ data : List Nat,
      (decode_packet data).isSome ↔ (data.length = 16 ∧ data.headD 0 = 172)) ∧
    (∀ b0 b1 b2 b3 b4 b5 b6 b7 b8 b9 b10 b11 b12 b13 b14 b15 : Nat, b0 = 172 →
      decode_packet [b0, b1, b2, b3, b4, b5, b6, b7, b8, b9, b10, b11, b12, b13, b14, b15]
        = some ⟨b0, b1, b2 + 256 * b3 + 65536 * b4 + 16777216 * b5,
            65536 * b6 + 256 * b7 + b8, 65536 * b9 + 256 * b10 + b11,
            b12 + 256 * b13, b14 + 256 * b15⟩) ∧
    (∀ (p : DataPacket) (bs : List Nat), encode_packet p = some bs → bs.length = 16) ∧
    (∀ (buf : List Nat) (p : DataPacket) (b' : List Nat),
      poll buf = (some (.pkt p), b') → p.header = 172) := by
  refine ⟨?_, ?_, ?_, ?_⟩
  · intro data
    constructor
    · intro hsome
      by_cases hlen : data.length = 16
      · refine ⟨hlen, ?_⟩
        obtain ⟨b0, b1, b2, b3, b4, b5, b6, b7, b8, b9, b10, b11, b12, b13, b14, b15, rfl⟩ :=
          exists_sixteen data hlen
        rw [List.headD_cons]
        by_contra hb0
        rw [show decode_packet
            [b0, b1, b2, b3, b4, b5, b6, b7, b8, b9, b10, b11, b12, b13, b14, b15] = none by
          simp [decode_packet, hb0]] at hsome
        exact absurd hsome (by simp)
      · rw [decode_packet_eq_none_of_length hlen] at hsome
        exact absurd hsome (by simp)
    · rintro ⟨hlen, hhead⟩
      obtain ⟨p, hp, -⟩ := decode_packet_isSome hlen hhead
      rw [hp]
      rfl
  · intro b0 b1 b2 b3 b4 b5 b6 b7 b8 b9 b10 b11 b12 b13 b14 b15 hb0
    subst hb0
    simp [decode_packet]
  · intro p bs h
    unfold encode_packet at h
    split at h
    · rw [Option.some_inj] at h
      rw [← h]
      rfl
    · exact absurd h (by simp)
  · intro buf p b' h
    exact poll_pkt_header h

/-- Witness for the amended C1 at concrete inputs. -/
theorem C1_telemetry_frame_amended_witness :
    (decode_packet (172 :: List.replicate 15 0)).isSome ∧
    decode_packet [172, 1, 2, 0, 0, 0, 0, 0, 3, 0, 0, 4, 5, 0, 6, 0]
      = some ⟨172, 1, 2, 3, 4, 5, 6⟩ ∧
    ((encode_packet ⟨172, 1, 2, 3, 4, 5, 6⟩).getD []).length = 16 ∧
    DataPacket.header ⟨172, 0, 0, 0, 0, 0, 0⟩ = 172 := by
  refine ⟨?_, ?_, ?_, ?_⟩
  · exact (C1_telemetry_frame_amended.1 _).mpr ⟨by simp, rfl⟩
  · exact C1_telemetry_frame_amended.2.1 172 1 2 0 0 0 0 0 3 0 0 4 5 0 6 0 rfl
  · rw [show encode_packet ⟨172, 1, 2, 3, 4, 5, 6⟩
        = some [172, 1, 2, 0, 0, 0, 0, 0, 3, 0, 0, 4, 5, 0, 6, 0] by decide]
    exact C1_telemetry_frame_amended.2.2.1 ⟨172, 1, 2, 3, 4, 5, 6⟩
      [172, 1, 2, 0, 0, 0, 0, 0, 3, 0, 0, 4, 5, 0, 6, 0] (by decide)
  · exact C1_telemetry_frame_amended.2.2.2 (172 :: List.replicate 15 0) _ []
      (by decide)

/-! ### Claim C2 -/

/-- C2 (amended): byte-at-a-time and all-at-once feeding decode the same
event sequence for every stream of at most 4096 bytes (the backlog cap);
a single feed beyond the cap drops bytes and can lose frames. -/
theorem C2_chunk_independence_amended (s : List Nat) (hs : s.length ≤ 4096) :
    (runBytes [] s).1 = drain (feed [] s) := by
  rw [feed_of_small (by simpa using hs)]
  have h := runBytes_eq_drain s [] (Or.inl rfl)
  simpa using h.1

/-- Witness for the amended C2: one valid ack followed by one valid
telemetry frame, fed both ways. -/
theorem C2_chunk_independence_amended_witness :
    ([171, 73, 1, 227, 172, 0, 0, 0, 0, 0, 0, 0, 0, 0, 0, 0, 0, 0, 0, 0] : List Nat).length
        ≤ 4096 ∧
      (runBytes [] [171, 73, 1, 227, 172, 0, 0, 0, 0, 0, 0, 0, 0, 0, 0, 0, 0, 0, 0, 0]).1
        = drain (feed [] [171, 73, 1, 227, 172, 0, 0, 0, 0, 0, 0, 0, 0, 0, 0, 0, 0, 0, 0, 0]) :=
  ⟨by decide, C2_chunk_independence_amended
    [171, 73, 1, 227, 172, 0, 0, 0, 0, 0, 0, 0, 0, 0, 0, 0, 0, 0, 0, 0] (by decide)⟩

/-- C2, counterexample: a 4112-byte stream (one valid telemetry frame, then
4096 noise bytes).  Fed byte-by-byte the frame is decoded; fed all at once
the cap drops the frame's 16 bytes before any poll sees them, so the claim
of chunk-size independence fails as stated. -/
theorem C2_cex : (runBytes [] streamBig).1 ≠ drain (feed [] streamBig) := by
  rw [feed_streamBig]
  rw [show (4096 : Nat) = 4095 + 1 from rfl, List.replicate_succ, drain_zeros]
  unfold streamBig
  rw [runBytes_append]
  have h1 : runBytes [] pkt16 = ([LinkEvent.pkt ⟨172, 0, 0, 0, 0, 0, 0⟩], []) := by decide
  rw [h1]
  dsimp only
  rw [runBytes_zeros]
  simp

/-! ### Claim C3 -/

/-- C3, counterexample: the 4-byte candidate [0xAB, 0x49, 0x01, 0x00] fails
its CRC8 check and `poll` removes all 4 bytes, leaving an empty buffer —
not the 3-byte buffer that dropping exactly 1 byte would leave. -/
theorem C3_cex :
    decode_ack [171, 73, 1, 0] = none ∧
    poll [171, 73, 1, 0] = (none, []) ∧
    ([171, 73, 1, 0] : List Nat).drop 1 ≠ [] := by
  exact ⟨by decide, by decide, by decide⟩

/-- C3 (amended): a buffered 4-byte ack candidate that fails its CRC8 check
is dropped whole — the stream is resynced by 4 bytes, not 1 — and the
corrupted candidate does not block recognition of subsequent valid frames
in the same buffer: the remaining stream drains identically. -/
theorem C3_ack_crc_resync_amended (a b c : Nat) (rest : List Nat)
    (hbad : decode_ack [171, a, b, c] = none) :
    poll (171 :: a :: b :: c :: rest) = (none, rest) ∧
    drain (171 :: a :: b :: c :: rest) = drain rest := by
  constructor
  · rw [poll_frame_ack, hbad]
    rfl
  · rw [drain_ack_cons, hbad]
    rfl

/-- Witness for the amended C3: the corrupted ack is followed by a valid
ack, which is still decoded. -/
theorem C3_ack_crc_resync_amended_witness :
    decode_ack [171, 73, 1, 0] = none ∧
    poll [171, 73, 1, 0, 171, 73, 1, 227] = (none, [171, 73, 1, 227]) ∧
    drain [171, 73, 1, 0, 171, 73, 1, 227] = drain [171, 73, 1, 227] ∧
    drain [171, 73, 1, 227] = [LinkEvent.ack 73 true] := by
  have h := C3_ack_crc_resync_amended 73 1 0 [171, 73, 1, 227] (by decide)
  exact ⟨by decide, h.1, h.2, by decide⟩

/-! ### Claim C4 -/

/-- C4: `encode_command` produces [0xAA, cmdChar, action, xor8 of the first
three bytes]; ack decode fails exactly on a wrong header or a checksum
mismatch; and decode-of-encode round-trips exactly for every command and
ack frame over byte-sized fields. -/
theorem C4_command_ack_roundtrip (c a : Nat) (s : Bool)
    (_hc : c < 256) (_ha : a < 256) :
    encode_command c a = [170, c, a, 170 ^^^ c ^^^ a] ∧
    decode_command (encode_command c a) = some (c, a) ∧
    decode_ack (encode_ack c s) = some (c, s) ∧
    (∀ x0 x1 x2 x3 : Nat,
      decode_ack [x0, x1, x2, x3] = none ↔ (x0 ≠ 171 ∨ x0 ^^^ x1 ^^^ x2 ≠ x3)) := by
  refine ⟨rfl, ?_, ?_, ?_⟩
  · unfold decode_command encode_command
    dsimp only
    rw [if_pos rfl, if_pos rfl]
  · unfold decode_ack encode_ack
    dsimp only
    rw [if_pos rfl, if_pos rfl]
    cases s <;> simp
  · intro x0 x1 x2 x3
    unfold decode_ack
    by_cases h0 : x0 = 171
    · by_cases hx : x0 ^^^ x1 ^^^ x2 = x3
      · simp [h0, hx]
      · simp [h0, hx]
    · simp [h0]

/-- Witness for C4 at cmdChar 'I' (0x49), action ON (0x01), state true. -/
theorem C4_command_ack_roundtrip_witness :
    (73 : Nat) < 256 ∧ (1 : Nat) < 256 ∧
    decode_command (encode_command 73 1) = some (73, 1) ∧
    decode_ack (encode_ack 73 true) = some (73, true) := by
  have h := C4_command_ack_roundtrip 73 1 true (by decide) (by decide)
  exact ⟨by decide, by decide, h.2.1, h.2.2.1⟩

/-! ### Claim C7 -/

theorem feed_unfold (buf chunk : List Nat) :
    feed buf chunk = if (buf ++ chunk).length > 4096 then
      (buf ++ chunk).drop ((buf ++ chunk).length - 4096)
    else buf ++ chunk := rfl

/-- C7: after every pull the backlog holds at most 4096 bytes; the result
is always a suffix of the old backlog plus the new chunk (only oldest bytes
are dropped, and `feed` is a total function — no error is raised); under
the cap nothing is dropped, past it exactly the oldest surplus is cut. -/
theorem C7_backlog_cap (buf chunk : List Nat) :
    (feed buf chunk).length ≤ 4096 ∧
    feed buf chunk <:+ buf ++ chunk ∧
    ((buf ++ chunk).length ≤ 4096 → feed buf chunk = buf ++ chunk) ∧
    ((buf ++ chunk).length > 4096 →
      feed buf chunk = (buf ++ chunk).drop ((buf ++ chunk).length - 4096)) := by
  refine ⟨?_, ?_, ?_, ?_⟩
  · rw [feed_unfold]
    split
    · next h =>
      rw [List.length_drop]
      omega
    · next h => omega
  · rw [feed_unfold]
    split
    · exact List.drop_suffix _ _
    · exact List.suffix_refl _
  · intro h
    rw [feed_unfold, if_neg (by omega)]
  · intro h
    rw [feed_unfold, if_pos h]

/-- Witness for C7: a pull that overflows the cap by one byte, and one that
stays under it. -/
theorem C7_backlog_cap_witness :
    ((List.replicate 4096 7 ++ [5] : List Nat).length > 4096) ∧
    feed (List.replicate 4096 7) [5]
      = (List.replicate 4096 7 ++ [5]).drop ((List.replicate 4096 7 ++ [5]).length - 4096) ∧
    (([1, 2, 3] ++ [4] : List Nat).length ≤ 4096) ∧
    feed [1, 2, 3] [4] = [1, 2, 3] ++ [4] := by
  have hgt : (List.replicate 4096 7 ++ [5] : List Nat).length > 4096 := by
    rw [List.length_append, List.length_replicate]
    simp only [List.length_cons, List.length_nil]
    omega
  exact ⟨hgt, (C7_backlog_cap (List.replicate 4096 7) [5]).2.2.2 hgt,
    by decide, (C7_backlog_cap [1, 2, 3] [4]).2.2.1 (by decide)⟩

/-! ### Claim C10 -/

/-- C10: decoding the encoding of a `DataPacket` whose fields are in wire
range (header 0xAC, u8 sequence, u32 timestamp, 24-bit integer channels,
u16 adc and crc) returns the original packet. -/
theorem C10_packet_roundtrip (p : DataPacket) (hh : p.header = 172)
    (hseq : p.sequence < 256) (hts : p.timestamp < 4294967296)
    (hc0 : p.channel0 < 16777216) (hc1 : p.channel1 < 16777216)
    (hadc : p.internal_adc < 65536) (hcrc : p.crc < 65536) :
    (encode_packet p).bind decode_packet = some p := by
  obtain ⟨h, sq, ts, c0, c1, ad, cr⟩ := p
  dsimp only at hh hseq hts hc0 hc1 hadc hcrc
  subst hh
  unfold encode_packet
  dsimp only
  rw [if_pos ⟨by simp, hseq, hts, hadc, hcrc⟩]
  rw [Option.some_bind]
  unfold decode_packet
  dsimp only
  rw [if_pos rfl, Option.some_inj, DataPacket.mk.injEq]
  refine ⟨rfl, rfl, by omega, by omega, by omega, by omega, by omega⟩

/-- Witness for C10 at a concrete in-range packet. -/
theorem C10_packet_roundtrip_witness :
    (encode_packet ⟨172, 1, 2, 3, 4, 5, 6⟩).bind decode_packet
      = some ⟨172, 1, 2, 3, 4, 5, 6⟩ :=
  C10_packet_roundtrip ⟨172, 1, 2, 3, 4, 5, 6⟩ rfl (by decide) (by decide)
    (by decide) (by decide) (by decide) (by decide)

/-! ### Claim C5 -/

/-- C5 (amended): with an open writer, a key still in the dedup window (the
100000 most recently recorded keys) is a no-op returning false; a fresh key
returns true, appends the row and records the key; and any request
sequence of at most 100000 rows through one freshly opened file never
writes two rows with the same key.  Past the bounded window an evicted key
can be written again (see the counterexample). -/
theorem C5_dedup_write_amended (s : LogSt) (p : Nat) (k : CsvKey) (ks : List CsvKey)
    (hopen : s.openFile = some p) (hbound : ks.length ≤ 100000) :
    (k ∈ s.writtenSet → write_row_dedup s k = (false, s)) ∧
    (k ∉ s.writtenSet → (write_row_dedup s k).1 = true ∧
      (write_row_dedup s k).2.disk = s.disk ++ [(p, k)] ∧
      k ∈ (write_row_dedup s k).2.writtenSet) ∧
    ((processWrites (freshOpen p) ks).disk.map Prod.snd).Nodup := by
  refine ⟨fun hk => write_dup hk, fun hk => ?_, ?_⟩
  · obtain ⟨h1, h2, h3, -⟩ := write_fresh hopen hk
    exact ⟨h1, h2, h3⟩
  · obtain ⟨hps, hnd, -⟩ :=
      processWrites_dedupSeen p ks [] List.nodup_nil (by simpa using hbound)
    rw [← mkLogSt_nil p, hps]
    unfold mkLogSt
    dsimp only
    rw [List.map_map]
    simpa using hnd

/-- Witness for the amended C5 at concrete keys. -/
theorem C5_dedup_write_amended_witness :
    (freshOpen 0).openFile = some 0 ∧
    (write_row_dedup (freshOpen 0) ⟨1, 2, 3, 4⟩).1 = true ∧
    write_row_dedup (mkLogSt 0 [⟨1, 2, 3, 4⟩]) ⟨1, 2, 3, 4⟩
      = (false, mkLogSt 0 [⟨1, 2, 3, 4⟩]) ∧
    ((processWrites (freshOpen 0) [⟨1, 2, 3, 4⟩, ⟨1, 2, 3, 4⟩]).disk.map Prod.snd).Nodup := by
  have h := C5_dedup_write_amended (freshOpen 0) 0 ⟨1, 2, 3, 4⟩
    [⟨1, 2, 3, 4⟩, ⟨1, 2, 3, 4⟩] rfl (by decide)
  have h2 := C5_dedup_write_amended (mkLogSt 0 [⟨1, 2, 3, 4⟩]) 0 ⟨1, 2, 3, 4⟩ [] rfl
    (by decide)
  exact ⟨rfl, (h.2.1 (by decide)).1, h2.1 (by decide), h.2.2⟩

/-- A key with identifying first component, for building many distinct
dedup keys. -/
def keyOf (i : Nat) : CsvKey := ⟨i, 0, 0, 0⟩

/-- 100001 pairwise distinct keys: one more than the dedup window holds. -/
def manyKeys : List CsvKey := (List.range 100001).map keyOf

theorem keyOf_injective : Function.Injective keyOf := by
  intro i j hij
  exact congrArg CsvKey.header hij

theorem manyKeys_nodup : manyKeys.Nodup :=
  (List.nodup_range 100001).map keyOf_injective

theorem manyKeys_shape :
    manyKeys = keyOf 0 :: ((List.range 100000).map fun i => keyOf (i + 1)) := by
  unfold manyKeys
  rw [List.range_succ_eq_map, List.map_cons, List.map_map]
  rfl

theorem manyKeys_length : manyKeys.length = 100001 := by
  unfold manyKeys
  rw [List.length_map, List.length_range]

theorem keyOf_zero_notin_window : keyOf 0 ∉ windowN manyKeys := by
  have hwin : windowN manyKeys = manyKeys.drop 1 := by
    unfold windowN
    rw [manyKeys_length]
  rw [hwin, manyKeys_shape]
  have hnd := manyKeys_nodup
  rw [manyKeys_shape, List.nodup_cons] at hnd
  simpa using hnd.1

theorem mkLogSt_disk (p : Nat) (l : List CsvKey) :
    (mkLogSt p l).disk = l.map fun k => (p, k) := rfl

theorem mkLogSt_openFile (p : Nat) (l : List CsvKey) :
    (mkLogSt p l).openFile = some p := rfl

theorem mkLogSt_set (p : Nat) (l : List CsvKey) :
    (mkLogSt p l).writtenSet = (windowN l).toFinset := rfl

/-- C5, counterexample: after writing 100001 distinct keys through one
open log session, the first key has been evicted from the bounded dedup
window; writing it again returns true and appends a second row with the
same key to the same file, refuting the claim as stated. -/
theorem C5_cex :
    ((0 : Nat), keyOf 0) ∈ (processWrites (freshOpen 0) manyKeys).disk ∧
    (write_row_dedup (processWrites (freshOpen 0) manyKeys) (keyOf 0)).1 = true := by
  have hps : processWrites (freshOpen 0) manyKeys = mkLogSt 0 manyKeys := by
    have hps0 := processWrites_mkLogSt 0 manyKeys [] (by simpa using manyKeys_nodup)
    rw [List.nil_append] at hps0
    rw [mkLogSt_nil 0] at hps0
    exact hps0
  constructor
  · rw [hps, mkLogSt_disk]
    refine List.mem_map_of_mem _ ?_
    rw [manyKeys_shape]
    exact List.mem_cons_self _ _
  · rw [hps]
    have hfresh : keyOf 0 ∉ (mkLogSt 0 manyKeys).writtenSet := by
      rw [mkLogSt_set, List.mem_toFinset]
      exact keyOf_zero_notin_window
    exact (write_fresh (mkLogSt_openFile 0 manyKeys) hfresh).1

/-! ### Claim C6 -/

theorem open_csv_set (s : LogSt) :
    (open_csv_if_needed s).writtenSet = s.writtenSet := by
  unfold open_csv_if_needed
  rcases h : s.csvPath with _ | p
  · rfl
  · rcases h2 : s.openFile with _ | q
    · rfl
    · rfl

theorem stop_logging_set (s : LogSt) :
    (stop_logging s).writtenSet = s.writtenSet := rfl

theorem start_logging_set (s : LogSt) (p : Nat) :
    (start_logging s p).writtenSet = s.writtenSet :=
  open_csv_set { s with csvPath := some p }

theorem snapshot_switch_reset (s : LogSt) (p : Nat) (h : s.csvPath ≠ some p) :
    (snapshot_switch s p).writtenSet = ∅ ∧ (snapshot_switch s p).openFile = some p := by
  unfold snapshot_switch
  rw [if_pos h]
  exact ⟨open_csv_set _, rfl⟩

/-- C6 (amended): the dedup set persists across stop/start of logging even
when `start_logging` changes the target path; the only operation that
resets it is `save_last_10s` switching to a different target path, after
which a previously written key is accepted again. -/
theorem C6_dedup_scope_amended (s : LogSt) (p q : Nat) (k : CsvKey)
    (hpath : s.csvPath ≠ some p) :
    (stop_logging s).writtenSet = s.writtenSet ∧
    (start_logging s q).writtenSet = s.writtenSet ∧
    (snapshot_switch s p).writtenSet = ∅ ∧
    (write_row_dedup (snapshot_switch s p) k).1 = true ∧
    (write_row_dedup (snapshot_switch s p) k).2.disk
      = (snapshot_switch s p).disk ++ [(p, k)] := by
  obtain ⟨hset, hopen⟩ := snapshot_switch_reset s p hpath
  refine ⟨stop_logging_set s, start_logging_set s q, hset, ?_, ?_⟩
  · exact (write_fresh hopen (by rw [hset]; simp)).1
  · exact (write_fresh hopen (by rw [hset]; simp)).2.1

/-- Witness for the amended C6 at a concrete state. -/
theorem C6_dedup_scope_amended_witness :
    (stop_logging (freshOpen 0)).writtenSet = (freshOpen 0).writtenSet ∧
    (start_logging (freshOpen 0) 1).writtenSet = (freshOpen 0).writtenSet ∧
    (snapshot_switch (freshOpen 0) 1).writtenSet = ∅ ∧
    (write_row_dedup (snapshot_switch (freshOpen 0) 1) ⟨9, 9, 9, 9⟩).1 = true ∧
    (write_row_dedup (snapshot_switch (freshOpen 0) 1) ⟨9, 9, 9, 9⟩).2.disk
      = (snapshot_switch (freshOpen 0) 1).disk ++ [(1, ⟨9, 9, 9, 9⟩)] :=
  C6_dedup_scope_amended (freshOpen 0) 1 1 ⟨9, 9, 9, 9⟩ (by decide)

/-- C6, counterexample: write a key while logging to path 0, stop logging,
then `start_logging` to the different path 1 — the target path changed, but
the dedup set was not reset: rewriting the same key to the new file is
refused, contradicting the claim that any target switch resets the set. -/
theorem C6_cex :
    (start_logging (stop_logging
        (write_row_dedup (freshOpen 0) ⟨1, 2, 3, 4⟩).2) 1).csvPath = some 1 ∧
    (freshOpen 0).csvPath = some 0 ∧
    (write_row_dedup (start_logging (stop_logging
        (write_row_dedup (freshOpen 0) ⟨1, 2, 3, 4⟩).2) 1) ⟨1, 2, 3, 4⟩).1 = false := by
  exact ⟨by decide, by decide, by decide⟩

/-! ### Claim C8 -/

/-- C8: Disconnected becomes Connected only through a successful reconnect;
Connected becomes Disconnected only through a transport error (including
the ready-but-empty read, folded into `PullRes.err`), a failing write in
`send_command`, or an explicit close — never through the parse phase of
`poll_event` (decode, header and CRC failures all live inside `poll`, which
the step function applies without touching the connection flag). -/
theorem C8_connection_transitions (s : RadioSt) (a : RAct) :
    (s.connected = false → (radioStep s a).connected = true → a = .reconnect true) ∧
    (s.connected = true → (radioStep s a).connected = false →
      a = .pollEvt .err ∨ a = .send false ∨ a = .close) := by
  obtain ⟨c, buf⟩ := s
  constructor
  · intro hdis hcon
    dsimp only at hdis
    subst hdis
    cases a with
    | reconnect ok =>
      cases ok
      · simp [radioStep, markDisconnected] at hcon
      · rfl
    | pollEvt r => simp [radioStep] at hcon
    | send ok => simp [radioStep] at hcon
    | close => simp [radioStep, markDisconnected] at hcon
  · intro hcon hdis
    dsimp only at hcon
    subst hcon
    cases a with
    | reconnect ok => simp [radioStep] at hdis
    | pollEvt r =>
      cases r
      · simp [radioStep] at hdis
      · exact Or.inl rfl
    | send ok =>
      cases ok
      · exact Or.inr (Or.inl rfl)
      · simp [radioStep] at hdis
    | close => exact Or.inr (Or.inr rfl)

/-- Witness for C8: a successful reconnect from Disconnected, and a close
from Connected. -/
theorem C8_connection_transitions_witness :
    RAct.reconnect true = RAct.reconnect true ∧
    (RAct.close = RAct.pollEvt .err ∨ RAct.close = RAct.send false ∨
      RAct.close = RAct.close) := by
  have h1 := (C8_connection_transitions ⟨false, []⟩ (.reconnect true)).1 rfl (by decide)
  have h2 := (C8_connection_transitions ⟨true, []⟩ .close).2 rfl (by decide)
  exact ⟨h1, h2⟩

/-! ### Claim C9 -/

/-- C9, counterexample: sending a command on a transport that has never
been opened does not raise a hard failure — `send_command` hits the
`if not self.is_connected() or not self.ser: return` guard and returns
silently, so no operation is visible to the caller as a hard failure. -/
theorem C9_cex : send_command ⟨false, []⟩ true = Except.ok ⟨false, []⟩ := rfl

/-- C9 (amended): no error is visible to a caller as a hard failure:
`send_command` always returns `.ok` — a closed or never-opened transport
makes it a silent no-op, and a failing write is absorbed into a disconnect
— and the per-frame decode, CRC, capacity and I/O handling of the polling
path is a total function of the state. -/
theorem C9_no_hard_failures_amended (s : RadioSt) (w : Bool) :
    (∃ s', send_command s w = Except.ok s') ∧
    (s.connected = false → send_command s w = Except.ok s) ∧
    (∀ e : Unit, send_command s w ≠ Except.error e) := by
  refine ⟨?_, ?_, ?_⟩
  · unfold send_command
    split
    · split
      · exact ⟨s, rfl⟩
      · exact ⟨markDisconnected s, rfl⟩
    · exact ⟨s, rfl⟩
  · intro h
    unfold send_command
    rw [if_neg (by rw [h]; simp)]
  · intro e
    unfold send_command
    split
    · split <;> simp
    · simp

/-- Witness for the amended C9 on a never-opened transport. -/
theorem C9_no_hard_failures_amended_witness :
    (∃ s', send_command ⟨false, []⟩ true = Except.ok s') ∧
    send_command ⟨false, []⟩ true = Except.ok ⟨false, []⟩ := by
  have h := C9_no_hard_failures_amended ⟨false, []⟩ true
  exact ⟨h.1, h.2.1 rfl⟩
